import Mathlib

/-!
Verification of the graph exercises repository (arthurbrenno/grafos).

Python dictionaries are embedded as association lists in insertion order
(`List (α × β)` with unique keys): lookup returns the first binding,
assignment replaces the binding in place or appends a fresh one at the end,
exactly like CPython's ordered dicts.  Python sets are embedded as duplicate
free lists in insertion order (set iteration order is arbitrary in Python;
the list order is the deterministic representative used here).  Python
`float` weights are embedded as `ℚ` (resp. `WithTop ℚ` where the code
manipulates `float("inf")`).  A raised exception is embedded as
`Option.none` or as an explicit error component.  Recursions whose Python
counterparts terminate by growing a visited set or shrinking a pending list
are driven by an explicit fuel counter instantiated so that exhaustion is
unreachable (the instantiation is noted at each wrapper).
-/

namespace PyDict

variable {α β : Type} [DecidableEq α]

/-- `d[k]` — first binding of `k`, `none` when the key is absent (KeyError). -/
def dget (d : List (α × β)) (k : α) : Option β :=
  match d with
  | [] => none
  | (k1, v1) :: rest => if k1 = k then some v1 else dget rest k

/-- `d[k] = v` — replace the binding of `k` in place, or append it. -/
def dset (d : List (α × β)) (k : α) (v : β) : List (α × β) :=
  match d with
  | [] => [(k, v)]
  | (k1, v1) :: rest => if k1 = k then (k, v) :: rest else (k1, v1) :: dset rest k v

/-- `d.keys()` in insertion order. -/
def dkeys (d : List (α × β)) : List α :=
  d.map Prod.fst

/-- Python `str.upper()` on the label alphabet in use: uppercase each
character (extensionally `String.toUpper`, stated over the character list so
that it evaluates by kernel reduction). -/
def pyUpper (s : String) : String :=
  ⟨s.data.map Char.toUpper⟩

end PyDict

open PyDict

/-! ## `src/dfs_bfs.py` — Prim's algorithm with the list-scan `EXTRACT_MIN` -/

namespace DfsBfs

/-- Weight type of `dfs_bfs.py`: Python floats including `float("inf")`. -/
abbrev W := WithTop ℚ

/-- `Graph.graph : dict[str, list[tuple[str, float]]]`. -/
abbrev Graph := List (String × List (String × W))

/-- `Graph.add_aresta`: create missing endpoint keys, then append the half
edges `(d, p)` to `o`'s list and `(o, p)` to `d`'s list. -/
def add_aresta (g : Graph) (o d : String) (p : W) : Graph :=
  let g1 := if o ∈ dkeys g then g else dset g o []
  let g2 := if d ∈ dkeys g1 then g1 else dset g1 d []
  let g3 := dset g2 o ((dget g2 o).getD [] ++ [(d, p)])
  dset g3 d ((dget g3 d).getD [] ++ [(o, p)])

/-- `w(g, v1, v2)`: linear scan of `g[v1]` for the first entry naming `v2`;
`none` embeds the `RuntimeError` when no adjacent entry is found. -/
def wfun (g : Graph) (v1 v2 : String) : Option W :=
  match dget g v1 with
  | none => none
  | some neighbors =>
    (neighbors.find? (fun nb => nb.1 = v2)).map Prod.snd

/-- The scan `min = Q[0]; for u in Q: if u < min: min = u` — it compares the
vertex NAMES with Python string `<` (code-point lexicographic order, which is
exactly the lexicographic order `List.lt` on the character lists
`String.data`, the order `String.instLT` denotes), not the key values. -/
def minLabel (q : String) (qs : List String) : String :=
  qs.foldl (fun m u => if u.data < m.data then u else m) q

/-- `EXTRACT_MIN(Q)`: the lexicographically least label, and `Q` with its
first occurrence removed (`Q.pop(Q.index(min))`). -/
def EXTRACT_MIN (q : String) (qs : List String) : String × List String :=
  let m := minLabel q qs
  (m, (q :: qs).erase m)

/-- `key` and `pai` of `prim`, as insertion-ordered dicts. -/
structure PrimState where
  key : List (String × W)
  pai : List (String × Option String)
  deriving DecidableEq

/-- Scan of `u`'s adjacency list inside the `while` loop of `prim`:
relax every neighbor still in `Q`; `none` embeds a crash of `w` or a
`key` KeyError. -/
def relaxAll (g : Graph) (u : String) (Q2 : List String) (st : PrimState) :
    Option PrimState :=
  match dget g u with
  | none => none
  | some neighbors =>
    neighbors.foldlM (fun (s : PrimState) nb =>
      if nb.1 ∈ Q2 then
        match wfun g u nb.1, dget s.key nb.1 with
        | some wv, some kv =>
          if wv < kv then
            some ⟨dset s.key nb.1 wv, dset s.pai nb.1 (some u)⟩
          else
            some s
        | _, _ => none
      else
        some s) st

/-- The whole `while len(Q) != 0` loop of `prim`.  Each iteration removes
exactly one vertex from `Q`, so the loop runs `Q.length` times; the recursion
is driven by a fuel counter that `prim` instantiates with `Q.length`, making
the `0, _ :: _` arm unreachable (`primLoopF_congr` below shows the result
does not depend on the fuel once it is at least `Q.length`). -/
def primLoopF (g : Graph) : ℕ → List String → PrimState → Option PrimState
  | _, [], st => some st
  | 0, _ :: _, _ => none
  | fuel + 1, q :: qs, st =>
    let p := EXTRACT_MIN q qs
    match relaxAll g p.1 p.2 st with
    | none => none
    | some st2 => primLoopF g fuel p.2 st2

/-- Initialization of `prim`: `key[u] = inf`, `pai[u] = None` for every
vertex, then `key[r] = 0`. -/
def primInit (g : Graph) (r : String) : PrimState :=
  let key0 := (dkeys g).map (fun u => (u, (⊤ : W)))
  let pai0 := (dkeys g).map (fun u => (u, (none : Option String)))
  ⟨dset key0 r 0, pai0⟩

/-- Final phase of `prim`: build the output graph from the `pai` entries
with a non-`None` parent, weighting each edge by the vertex's key. -/
def buildMst (key : List (String × W)) (pai : List (String × Option String)) :
    Option Graph :=
  pai.foldlM (fun (ng : Graph) vp =>
    match vp.2 with
    | none => some ng
    | some p =>
      match dget key vp.1 with
      | none => none
      | some kv => some (add_aresta ng vp.1 p kv)) []

/-- `prim(g, w, r)` from `dfs_bfs.py`. -/
def prim (g : Graph) (r : String) : Option Graph :=
  let st := primInit g r
  match primLoopF g (dkeys g).length (dkeys g) st with
  | none => none
  | some st2 => buildMst st2.key st2.pai

/-- The module-level example graph of `dfs_bfs.py`. -/
def exampleGraph : Graph :=
  add_aresta (add_aresta (add_aresta (add_aresta (add_aresta [] "a" "b" 2)
    "b" "c" 5) "c" "a" 3) "c" "d" 4) "d" "b" 1

/-- The spanning tree `prim` produces on `exampleGraph` with root `"a"`:
tree edges b–a (2.0), c–a (3.0), d–b (1.0), each stored as two half edges. -/
def exampleMst : Graph :=
  [("b", [("a", 2), ("d", 1)]), ("a", [("b", 2), ("c", 3)]),
   ("c", [("a", 3)]), ("d", [("b", 1)])]

/-- Sum of every stored half-edge weight (each undirected edge twice). -/
def totalPeso (g : Graph) : W :=
  ((g.map Prod.snd).flatten.map Prod.snd).sum

/-- A graph on which label-based extraction diverges from key-based
extraction: edges a–c (1.0) and b–c (10.0). -/
def counterGraph : Graph :=
  add_aresta (add_aresta [] "a" "c" 1) "b" "c" 10

end DfsBfs

/-! ## `src/tarefa1.py` — `Vertice`/`Arco`/`Grafo` and path enumeration -/

namespace Tarefa1

/-- `Vertice`: a frozen dataclass carrying only a name. -/
structure Vertice where
  nome : String
  deriving DecidableEq

/-- `Arco`: a frozen dataclass with origin, destination and weight. -/
structure Arco where
  origem : Vertice
  destino : Vertice
  peso : ℚ
  deriving DecidableEq

/-- `Grafo`: the vertex set (`ListaDeVertices.vertices`, iterated in
insertion order) and the arc dictionary (`MapaDeArcos.arcos`, keyed by
ordered vertex pairs). -/
structure Grafo where
  vertices : List Vertice
  arcos : List ((Vertice × Vertice) × Arco)
  deriving DecidableEq

/-- `self.grafo.arcos.arcos[(a, b)]` (`none` = key absent). -/
def arcoGet (g : Grafo) (k : Vertice × Vertice) : Option Arco :=
  dget g.arcos k

/-- `ListaDeVertices.criar`: `set.add`. -/
def criarVertice (g : Grafo) (v : Vertice) : Grafo :=
  if v ∈ g.vertices then g else { g with vertices := g.vertices ++ [v] }

/-- The module-level function `g` applied to one tuple `(v1, v2, peso)`:
raises `ValueError` (here `none`) when an endpoint is missing, otherwise
stores the same `Arco` object under both `(v1, v2)` and `(v2, v1)`. -/
def gAddArco (g : Grafo) (v1 v2 : Vertice) (peso : ℚ) : Option Grafo :=
  if v1 ∉ g.vertices then none
  else if v2 ∉ g.vertices then none
  else
    let arco : Arco := ⟨v1, v2, peso⟩
    some { g with arcos := dset (dset g.arcos (v1, v2) arco) (v2, v1) arco }

/-- The inner `dfs` of `calcular_possibilidades_caminhos`.  The shared
mutable `vertices_visitados` set is added to on entry and removed from on
exit, so each call observes exactly `vis` plus the vertices on the current
branch: the functional rendering passes the grown set downward.  The fuel
bounds the recursion depth; every nested call visits a vertex outside
`vis`, so depth never exceeds the vertex count and the wrapper's fuel of
`vertices.length + 1` is never exhausted. -/
def dfsT1 (g : Grafo) (dest : Vertice) :
    ℕ → Vertice → List Vertice → List Arco → List (List Arco)
  | 0, _, _, _ => []
  | fuel + 1, atual, vis, caminho =>
    if atual = dest then [caminho]
    else
      let vis2 := if atual ∈ vis then vis else vis ++ [atual]
      g.vertices.flatMap (fun v =>
        match arcoGet g (atual, v) with
        | none => []
        | some arco =>
          if v ∈ vis2 then []
          else dfsT1 g dest fuel v vis2 (caminho ++ [arco]))

/-- `CalculadoraDeGrafo.calcular_possibilidades_caminhos`. -/
def calcular_possibilidades_caminhos (g : Grafo) (v1 v2 : Vertice) :
    List (List Arco) :=
  if v1 ∉ g.vertices ∨ v2 ∉ g.vertices then []
  else dfsT1 g v2 (g.vertices.length + 1) v1 [] []

/-- `CalculadoraDeGrafo.calcular_soma_pesos`: the running-sum loop over each
enumerated path. -/
def calcular_soma_pesos (g : Grafo) (v1 v2 : Vertice) : List ℚ :=
  (calcular_possibilidades_caminhos g v1 v2).map
    (fun p => p.foldl (fun soma arco => soma + arco.peso) 0)

/-- A list of arcs `p` traced along the vertex sequence `vs`: consecutive
vertices of `vs` are keys of the arc dictionary and yield exactly the arcs
of `p`, in order. -/
def ArcTrail (g : Grafo) : List Vertice → List Arco → Prop
  | [_], [] => True
  | a :: b :: vs, arco :: rest => arcoGet g (a, b) = some arco ∧ ArcTrail g (b :: vs) rest
  | _, _ => False

/-- Example graph of `tarefa1.main`: vertices A, B, C and undirected arcs
A–B, A–C, C–B of weight 1.0 each. -/
def exampleGrafo : Option Grafo :=
  let vA : Vertice := ⟨"A"⟩
  let vB : Vertice := ⟨"B"⟩
  let vC : Vertice := ⟨"C"⟩
  let g0 := criarVertice (criarVertice (criarVertice ⟨[], []⟩ vA) vB) vC
  match gAddArco g0 vA vB 1 with
  | none => none
  | some g1 =>
    match gAddArco g1 vA vC 1 with
    | none => none
    | some g2 => gAddArco g2 vC vB 1

end Tarefa1

/-! ## `src/tarefa2_lista.py` — uppercased adjacency-list graph -/

namespace Tarefa2Lista

/-- `Grafo.grafo : dict[str, set[DestinoEPeso]]`. -/
abbrev Grafo := List (String × List (String × ℚ))

/-- `Grafo.add_vertice`: returns unchanged when the RAW label is already a
key; otherwise binds the UPPERCASED label to a fresh empty set (replacing
any existing binding of the uppercased label). -/
def add_vertice (g : Grafo) (vertice : String) : Grafo :=
  if vertice ∈ dkeys g then g else dset g (pyUpper vertice) []

/-- `Grafo.add_aresta`: both presence checks precede the single mutation;
the error component embeds the raised `RuntimeError`. -/
def add_aresta (g : Grafo) (origem destino : String) (peso : ℚ) :
    Grafo × Option String :=
  if (pyUpper origem) ∉ dkeys g then
    (g, some "O primeiro vertice nao foi encontrado no grafo.")
  else if (pyUpper destino) ∉ dkeys g then
    (g, some "O segundo vertice nao foi encontrado no grafo.")
  else
    let row := (dget g (pyUpper origem)).getD []
    let row2 := if ((pyUpper destino), peso) ∈ row then row else row ++ [((pyUpper destino), peso)]
    (dset g (pyUpper origem) row2, none)

/-- `Grafo.calcular_caminhos_possiveis` (recursive body).  `none` embeds the
`KeyError` raised by `self.grafo[origem]` when `origem` is not a key (and
fuel exhaustion, which on graphs whose stored destinations are uppercased
keys is unreachable for the wrapper's fuel, because each level visits a
vertex not yet in `visitados`). -/
def calcCaminhos (g : Grafo) :
    ℕ → String → String → List (String × ℚ) → List String →
      Option (List (List (String × ℚ)))
  | 0, _, _, _, _ => none
  | fuel + 1, origem, destino, caminho, vis =>
    let vis2 := if origem ∈ vis then vis else vis ++ [origem]
    if origem = destino then some [caminho]
    else
      match dget g origem with
      | none => none
      | some nbrs =>
        nbrs.foldlM (fun acc nb =>
          if nb.1 ∈ vis2 then some acc
          else
            match calcCaminhos g fuel (pyUpper nb.1) (pyUpper destino)
                (caminho ++ [nb]) vis2 with
            | none => none
            | some found => some (acc ++ found)) []

/-- `calcular_caminhos_possiveis` with its default arguments. -/
def calcular_caminhos_possiveis (g : Grafo) (origem destino : String) :
    Option (List (List (String × ℚ))) :=
  calcCaminhos g ((dkeys g).length + 1) origem destino [] []

end Tarefa2Lista

/-! ## `src/tarefa2_matriz.py` — adjacency-matrix graph -/

namespace Tarefa2Matriz

/-- `RepresentacaoGrafo = dict[str, dict[str, float | None]]`. -/
abbrev Grafo := List (String × List (String × Option ℚ))

/-- `Grafo.add_aresta`: both presence checks precede the single cell
assignment `self.grafo[origem][destino] = peso`. -/
def add_aresta (g : Grafo) (origem destino : String) (peso : ℚ) :
    Grafo × Option String :=
  if origem ∉ dkeys g then
    (g, some "O vertice de origem nao foi encontrado no grafo.")
  else if destino ∉ dkeys g then
    (g, some "O vertice de destino nao foi encontrado no grafo.")
  else
    let row := (dget g origem).getD []
    (dset g origem (dset row destino (some peso)), none)

/-- `Grafo.calcular_caminhos_possiveis` (recursive body); `none` embeds the
`KeyError` on a missing origin row and unreachable fuel exhaustion. -/
def calcCaminhos (g : Grafo) :
    ℕ → String → String → List (String × ℚ) → List String →
      Option (List (List (String × ℚ)))
  | 0, _, _, _, _ => none
  | fuel + 1, origem, destino, caminho, vis =>
    let vis2 := if origem ∈ vis then vis else vis ++ [origem]
    if origem = destino then some [caminho]
    else
      match dget g origem with
      | none => none
      | some row =>
        row.foldlM (fun acc cell =>
          match cell.2 with
          | none => some acc
          | some peso =>
            if cell.1 ∈ vis2 then some acc
            else
              match calcCaminhos g fuel cell.1 destino
                  (caminho ++ [(cell.1, peso)]) vis2 with
              | none => none
              | some found => some (acc ++ found)) []

/-- `calcular_caminhos_possiveis` with its default arguments. -/
def calcular_caminhos_possiveis (g : Grafo) (origem destino : String) :
    Option (List (List (String × ℚ))) :=
  calcCaminhos g ((dkeys g).length + 1) origem destino [] []

end Tarefa2Matriz

/-! ## `src/propriedades_grafo.py` — connectivity and planarity checks -/

namespace Propriedades

/-- `Grafo.grafo : dict[str, list[str]]`. -/
abbrev Grafo := List (String × List String)

/-- `Grafo.add_aresta`: create missing endpoint keys, then append each
endpoint to the other's neighbor list. -/
def add_aresta (g : Grafo) (v1 v2 : String) : Grafo :=
  let g1 := if v1 ∈ dkeys g then g else dset g v1 []
  let g2 := if v2 ∈ dkeys g1 then g1 else dset g1 v2 []
  let g3 := dset g2 v1 ((dget g2 v1).getD [] ++ [v2])
  dset g3 v2 ((dget g3 v2).getD [] ++ [v1])

/-- The inner recursive `dfs` of `eh_conexo`, returning the visited set it
grows.  A missing neighbor key would raise `KeyError` in Python; graphs
built through `add_aresta`/`carregar_de_arquivo` keep every neighbor a key,
which the `getD []` mirrors on that invariant's domain.  Fuel bounds the
recursion depth, which never exceeds the vertex count. -/
def dfsVisit (g : Grafo) : ℕ → String → List String → List String
  | 0, _, vis => vis
  | fuel + 1, vertice, vis =>
    let vis2 := if vertice ∈ vis then vis else vis ++ [vertice]
    ((dget g vertice).getD []).foldl
      (fun acc vizinho =>
        if vizinho ∈ acc then acc else dfsVisit g fuel vizinho acc) vis2

/-- `Grafo.eh_conexo`: vacuously true on the empty graph, otherwise DFS
from the first key and compare visited count with the vertex count. -/
def eh_conexo (g : Grafo) : Bool :=
  match g with
  | [] => true
  | (v0, _) :: _ => (dfsVisit g (g.length + 1) v0 []).length == g.length

/-- `Grafo.eh_plano`: empty graph is planar; otherwise apply Euler's bound
`e ≤ 3v − 6` for `v ≥ 3` and declare any smaller graph planar.  `e` counts
each undirected edge once: half the sum of the adjacency-list lengths. -/
def eh_plano (g : Grafo) : Bool :=
  match g with
  | [] => true
  | _ =>
    let v := g.length
    let e := ((g.map (fun kv => kv.2.length)).sum) / 2
    if 3 ≤ v then decide (e ≤ 3 * v - 6) else true

/-- Number of vertices: `len(self.grafo)`. -/
def numVertices (g : Grafo) : ℕ := g.length

/-- Edge count as `eh_plano` computes it: half the total adjacency length. -/
def numArestas (g : Grafo) : ℕ := ((g.map (fun kv => kv.2.length)).sum) / 2

end Propriedades

/-! ## `src/trabalho1/3p1.py` — counting DFS and its `eh_conexo` -/

namespace Trabalho1

/-- `Grafo.adjacencias : dict[str, set[str]]`. -/
abbrev Grafo := List (String × List String)

/-- `Grafo.add_aresta`: create missing endpoint keys bound to empty sets,
then `set.add` each endpoint to the other's set. -/
def add_aresta (g : Grafo) (v1 v2 : String) : Grafo :=
  let g1 := if v1 ∈ dkeys g then g else dset g v1 []
  let g2 := if v2 ∈ dkeys g1 then g1 else dset g1 v2 []
  let r1 := (dget g2 v1).getD []
  let g3 := dset g2 v1 (if v2 ∈ r1 then r1 else r1 ++ [v2])
  let r2 := (dget g3 v2).getD []
  dset g3 v2 (if v1 ∈ r2 then r2 else r2 ++ [v1])

/-- The module-level `dfs`: increments the counter, appends to the shared
visited list, and recurses into unvisited neighbors, threading both.  Fuel
bounds the recursion depth, which never exceeds the vertex count. -/
def dfsCount (g : Grafo) : ℕ → String → List String → ℕ → ℕ × List String
  | 0, _, vis, contador => (contador, vis)
  | fuel + 1, origem, vis, contador =>
    let contador2 := contador + 1
    let vis2 := vis ++ [origem]
    ((dget g origem).getD []).foldl
      (fun acc w =>
        if w ∈ acc.2 then acc else dfsCount g fuel w acc.2 acc.1)
      (contador2, vis2)

/-- `Grafo.eh_conexo`: `random.choice` on the key list raises `IndexError`
(`none`) when the graph is empty; otherwise the DFS starts from the chosen
key `start` and the method returns the TRUTHINESS of the returned counter
(`if dfs(...):`), i.e. whether it is nonzero. -/
def eh_conexo (g : Grafo) (start : String) : Option Bool :=
  match g with
  | [] => none
  | _ => some (decide ((dfsCount g (g.length + 1) start [] 0).1 ≠ 0))

/-- A disconnected graph: components {a, b} and {c, d}. -/
def discGraph : Grafo :=
  add_aresta (add_aresta [] "a" "b") "c" "d"

end Trabalho1

/-! ## `src/aula1.py` and `src/main.py` — vertex creation variants -/

namespace Aula1

/-- `Grafo.grafo : dict[str, set[str]]`. -/
abbrev Grafo := List (String × List String)

/-- `Grafo.criar_vertice`: unconditionally `self.grafo[vertice] = set({})`. -/
def criar_vertice (g : Grafo) (vertice : String) : Grafo :=
  dset g vertice []

/-- `Grafo.adicionar_aresta`: `set.add` on both endpoint sets; `none`
embeds the `KeyError` when an endpoint was never created. -/
def adicionar_aresta (g : Grafo) (origem destino : String) : Option Grafo :=
  match dget g origem with
  | none => none
  | some r1 =>
    let g2 := dset g origem (if destino ∈ r1 then r1 else r1 ++ [destino])
    match dget g2 destino with
    | none => none
    | some r2 =>
      some (dset g2 destino (if origem ∈ r2 then r2 else r2 ++ [origem]))

end Aula1

namespace MainPy

/-- `Grafo.grafo : dict[str, list[str]]`. -/
abbrev Grafo := List (String × List String)

/-- `Grafo.criar_vertice` of `main.py`: guarded by
`if vertice not in self.grafo`. -/
def criar_vertice (g : Grafo) (vertice : String) : Grafo :=
  if vertice ∈ dkeys g then g else dset g vertice []

end MainPy

/-! ## Dijkstra — `CalculadoraDeGrafo.calcular_menor_distancia_com_pesos` -/

namespace SpecDijkstra

/-- Adjacency-list weighted graph over which the spec's Dijkstra runs. -/
abbrev Grafo := List (String × List (String × ℚ))

/-- Pointwise update of a distance or path map. -/
def upd {β : Type} (f : String → β) (k : String) (v : β) : String → β :=
  fun x => if x = k then v else f x

/-- Modelled from the spec: the linear-scan "select the not-yet-finalized
vertex with minimum current distance" of §4.7 (the source method
`calcular_menor_distancia_com_pesos` in `src/tarefa1/tarefa1.py` is an
unimplemented TODO stub returning `-1.0`; the algorithm it is specified to
run exists only in the spec). -/
def selectMin (dist : String → WithTop ℚ) (q : String) (qs : List String) :
    String :=
  qs.foldl (fun m u => if dist u < dist m then u else m) q

/-- Modelled from the spec: relax every edge leaving `u` — for neighbor `w`
with weight `c`, if `dist u + c < dist w` then update `dist w` and set
`path w = path u ++ [w]`. -/
def relaxNbrs (u : String) (nbrs : List (String × ℚ))
    (st : (String → WithTop ℚ) × (String → List String)) :
    (String → WithTop ℚ) × (String → List String) :=
  nbrs.foldl (fun s nb =>
    if s.1 u + (nb.2 : WithTop ℚ) < s.1 nb.1 then
      (upd s.1 nb.1 (s.1 u + (nb.2 : WithTop ℚ)), upd s.2 nb.1 (s.2 u ++ [nb.1]))
    else s) st

/-- Modelled from the spec: the main loop of §4.7's Dijkstra — while
vertices are pending, select the minimum-distance one; if its distance is
`+∞` every remaining vertex is unreachable and the loop terminates early;
otherwise finalize it (remove it from the pending list) and relax its
outgoing edges.  Each iteration removes one pending vertex, so fuel
`pending.length` (supplied by `dijkstra`) is never exhausted. -/
def dloop (g : Grafo) :
    ℕ → List String → (String → WithTop ℚ) → (String → List String) →
      (String → WithTop ℚ) × (String → List String)
  | 0, _, dist, path => (dist, path)
  | _ + 1, [], dist, path => (dist, path)
  | fuel + 1, q :: qs, dist, path =>
    let u := selectMin dist q qs
    if dist u = ⊤ then (dist, path)
    else
      let pending2 := (q :: qs).erase u
      let st := relaxNbrs u ((dget g u).getD []) (dist, path)
      dloop g fuel pending2 st.1 st.2

/-- Modelled from the spec: §4.7 single-source shortest paths — distance
map `+∞` everywhere except the source (0), path map `[source]` for the
source and empty elsewhere, then the linear-scan loop. -/
def dijkstra (g : Grafo) (s : String) :
    (String → WithTop ℚ) × (String → List String) :=
  dloop g (dkeys g).length (dkeys g)
    (fun v => if v = s then 0 else ⊤)
    (fun v => if v = s then [s] else [])

end SpecDijkstra

/-! ## Helper lemmas on the dict embedding -/

namespace PyDict

variable {α β : Type} [DecidableEq α]

theorem dget_dset_self (d : List (α × β)) (k : α) (v : β) :
    dget (dset d k v) k = some v := by
  induction d with
  | nil => simp [dget, dset]
  | cons hd tl ih =>
    obtain ⟨k1, v1⟩ := hd
    by_cases h : k1 = k
    · simp [dget, dset, h]
    · simp [dget, dset, h, ih]

theorem dget_mem (d : List (α × β)) (k : α) (v : β)
    (h : dget d k = some v) : (k, v) ∈ d := by
  induction d with
  | nil => simp [dget] at h
  | cons hd tl ih =>
    obtain ⟨k1, v1⟩ := hd
    by_cases hk : k1 = k
    · simp [dget, hk] at h
      simp [hk, h]
    · simp only [dget, if_neg hk] at h
      exact List.mem_cons_of_mem _ (ih h)

theorem dget_eq_none_of_not_mem (d : List (α × β)) (k : α)
    (h : k ∉ dkeys d) : dget d k = none := by
  induction d with
  | nil => simp [dget]
  | cons hd tl ih =>
    obtain ⟨k1, v1⟩ := hd
    simp only [dkeys, List.map_cons, List.mem_cons] at h
    push_neg at h
    have h2 : k ∉ dkeys tl := by simpa [dkeys] using h.2
    have h1 : ¬ k1 = k := fun he => h.1 he.symm
    simp [dget, h1, ih h2]

end PyDict

namespace DfsBfs

theorem minLabel_mem (q : String) (qs : List String) : minLabel q qs ∈ q :: qs := by
  unfold minLabel
  induction qs generalizing q with
  | nil => simp
  | cons hd tl ih =>
    rw [List.foldl_cons]
    rcases List.mem_cons.mp (ih (if hd.data < q.data then hd else q)) with h | h
    · rw [h]
      by_cases hc : hd.data < q.data
      · rw [if_pos hc]
        exact List.mem_cons_of_mem _ (List.mem_cons_self _ _)
      · rw [if_neg hc]
        exact List.mem_cons_self _ _
    · exact List.mem_cons_of_mem _ (List.mem_cons_of_mem _ h)

theorem primLoopF_congr (g : Graph) :
    ∀ (fuel1 fuel2 : ℕ) (Q : List String) (st : PrimState),
      Q.length ≤ fuel1 → Q.length ≤ fuel2 →
      primLoopF g fuel1 Q st = primLoopF g fuel2 Q st := by
  intro fuel1
  induction fuel1 with
  | zero =>
    intro fuel2 Q st h1 _
    match Q with
    | [] => cases fuel2 <;> rfl
    | q :: qs => simp at h1
  | succ f1 ih =>
    intro fuel2 Q st h1 h2
    match Q with
    | [] => cases fuel2 <;> rfl
    | q :: qs =>
      match fuel2 with
      | 0 => simp at h2
      | f2 + 1 =>
        simp only [primLoopF]
        have hlen : ((q :: qs).erase (minLabel q qs)).length = qs.length := by
          rw [List.length_erase_of_mem (minLabel_mem q qs)]
          simp
        have hq : qs.length ≤ f1 := by simpa using h1
        have hq2 : qs.length ≤ f2 := by simpa using h2
        cases relaxAll g (EXTRACT_MIN q qs).1 (EXTRACT_MIN q qs).2 st with
        | none => rfl
        | some st2 =>
          simp only []
          exact ih f2 (EXTRACT_MIN q qs).2 st2
            (by simpa [EXTRACT_MIN, hlen] using hq)
            (by simpa [EXTRACT_MIN, hlen] using hq2)

/-- C1: the claim that every iteration of `prim`'s loop extracts a pending
vertex of minimal key fails on the code: `EXTRACT_MIN` compares the vertex
labels, not the keys.  On `counterGraph` (edges a–c 1.0, b–c 10.0) with root
"a", the first iteration extracts "a" and sets key("c") = 1; the second
iteration extracts "b" — the lexicographically least pending label — whose
key is still ∞, although "c" remains pending with key 1, so the extracted
key is not ≤ every pending key.  The full run then returns a non-spanning
single-edge graph. -/
theorem c1_extract_min_ignores_keys :
    dkeys counterGraph = ["a", "c", "b"] ∧
    EXTRACT_MIN "a" ["c", "b"] = ("a", ["c", "b"]) ∧
    (∃ st1, relaxAll counterGraph "a" ["c", "b"] (primInit counterGraph "a") =
        some st1 ∧
      (EXTRACT_MIN "c" ["b"]).1 = "b" ∧
      "c" ∈ (EXTRACT_MIN "c" ["b"]).2 ∧
      dget st1.key "b" = some ⊤ ∧
      dget st1.key "c" = some ((1 : ℚ) : W) ∧
      ¬ ((⊤ : W) ≤ ((1 : ℚ) : W))) ∧
    prim counterGraph "a" = some [("c", [("a", 1)]), ("a", [("c", 1)])] := by
  refine ⟨by decide, by decide, ⟨_, rfl, by decide, by decide, by decide,
    by decide, by decide⟩, by decide⟩

/-- C8: `prim` on the graph a–b(2.0), b–c(5.0), c–a(3.0), c–d(4.0), d–b(1.0)
with root "a" yields the spanning tree with edges a–b (2.0), a–c (3.0),
b–d (1.0), whose total weight is 6.0 (the half-edge sum is 2 · 6). -/
theorem c8_prim_example_total_weight :
    prim exampleGraph "a" = some exampleMst ∧
    totalPeso exampleMst = 2 * ((6 : ℚ) : W) := by
  constructor
  · decide
  · rw [← WithTop.coe_ofNat, ← WithTop.coe_mul]
    norm_num [totalPeso, exampleMst]

end DfsBfs

/-! ## C3 — the two `eh_conexo` implementations -/

/-- C3: the claim (return true on the empty graph; otherwise true iff the
DFS from the chosen start visits as many vertices as the graph has) is what
`propriedades_grafo.py` implements, but `trabalho1/3p1.py`'s `eh_conexo`
tests only the TRUTHINESS of the DFS counter: on the disconnected graph
a–b, c–d it answers `True` from every possible start although the DFS from
"a" visits 2 of 4 vertices (the sibling implementation correctly answers
`False` on the same graph), and on the empty graph it raises `IndexError`
instead of returning true. -/
theorem c3_trabalho1_eh_conexo_truthiness :
    Trabalho1.eh_conexo Trabalho1.discGraph "a" = some true ∧
    Trabalho1.eh_conexo Trabalho1.discGraph "b" = some true ∧
    Trabalho1.eh_conexo Trabalho1.discGraph "c" = some true ∧
    Trabalho1.eh_conexo Trabalho1.discGraph "d" = some true ∧
    (Trabalho1.dfsCount Trabalho1.discGraph (Trabalho1.discGraph.length + 1)
      "a" [] 0).1 = 2 ∧
    (dkeys Trabalho1.discGraph).length = 4 ∧
    Propriedades.eh_conexo
      (Propriedades.add_aresta (Propriedades.add_aresta [] "a" "b") "c" "d") =
      false ∧
    Trabalho1.eh_conexo ([] : Trabalho1.Grafo) "a" = none := by
  decide

/-! ## C7 — the Euler-bound planarity heuristic -/

/-- C7: `eh_plano` returns true for every graph with fewer than 3 vertices
(including the empty graph), and for `v ≥ 3` it returns true iff the edge
count (half the total adjacency-list length) satisfies `e ≤ 3v − 6`. -/
theorem c7_eh_plano_euler_bound (g : Propriedades.Grafo) :
    (Propriedades.numVertices g < 3 → Propriedades.eh_plano g = true) ∧
    (3 ≤ Propriedades.numVertices g →
      (Propriedades.eh_plano g = true ↔
        Propriedades.numArestas g ≤ 3 * Propriedades.numVertices g - 6)) := by
  constructor
  · intro h
    cases g with
    | nil => rfl
    | cons x xs =>
      simp only [Propriedades.numVertices] at h
      simp only [Propriedades.eh_plano]
      rw [if_neg (by omega)]
  · intro h3
    cases g with
    | nil => simp [Propriedades.numVertices] at h3
    | cons x xs =>
      simp only [Propriedades.numVertices] at h3
      simp only [Propriedades.eh_plano, Propriedades.numArestas,
        Propriedades.numVertices]
      rw [if_pos h3]
      simp

/-- Witness for C7: a 2-vertex graph is declared planar by the small-graph
branch, and on K4 (4 vertices, 6 edges) the Euler-bound equivalence holds. -/
theorem c7_eh_plano_euler_bound_witness :
    Propriedades.eh_plano [("A", ["B"]), ("B", ["A"])] = true ∧
    (Propriedades.eh_plano
        [("a", ["b", "c", "d"]), ("b", ["a", "c", "d"]),
         ("c", ["a", "b", "d"]), ("d", ["a", "b", "c"])] = true ↔
      Propriedades.numArestas
          [("a", ["b", "c", "d"]), ("b", ["a", "c", "d"]),
           ("c", ["a", "b", "d"]), ("d", ["a", "b", "c"])] ≤
        3 * Propriedades.numVertices
            [("a", ["b", "c", "d"]), ("b", ["a", "c", "d"]),
             ("c", ["a", "b", "d"]), ("d", ["a", "b", "c"])] - 6) :=
  ⟨(c7_eh_plano_euler_bound _).1 (by decide),
   (c7_eh_plano_euler_bound _).2 (by decide)⟩

/-! ## C4 — duplicate vertex creation across the three variants -/

/-- C4 counterexample: in `aula1.py` a second `criar_vertice("A")` rebinds
"A" to a fresh empty set, clearing the edge A–B created in between; in
`tarefa2_lista.py`, `add_vertice("a")` on a graph whose keys hold the
uppercased "A" passes the raw-label existence check and rebinds "A" to an
empty set, clearing its edges.  So a second `createVertex` call with the
same label does clear existing edges, contradicting the claim. -/
theorem c4_criar_vertice_clears_edges :
    Aula1.adicionar_aresta (Aula1.criar_vertice (Aula1.criar_vertice [] "A") "B")
      "A" "B" = some [("A", ["B"]), ("B", ["A"])] ∧
    Aula1.criar_vertice [("A", ["B"]), ("B", ["A"])] "A" =
      [("A", []), ("B", ["A"])] ∧
    Tarefa2Lista.add_vertice [("A", [("B", 1)]), ("B", [])] "a" =
      [("A", []), ("B", [])] := by
  decide

/-- C4 (amended): `main.py`'s guarded `criar_vertice` is a no-op on an
existing label; `tarefa2_lista.py`'s `add_vertice` is a no-op exactly when
the RAW label is already a key (otherwise it rebinds the uppercased label to
an empty set); `aula1.py`'s `criar_vertice` always rebinds the label to an
empty adjacency set. -/
theorem c4_criar_vertice_amended :
    (∀ (g : MainPy.Grafo) (v : String), v ∈ dkeys g →
      MainPy.criar_vertice g v = g) ∧
    (∀ (g : Tarefa2Lista.Grafo) (v : String), v ∈ dkeys g →
      Tarefa2Lista.add_vertice g v = g) ∧
    (∀ (g : Aula1.Grafo) (v : String),
      dget (Aula1.criar_vertice g v) v = some []) ∧
    (∀ (g : Tarefa2Lista.Grafo) (v : String), v ∉ dkeys g →
      dget (Tarefa2Lista.add_vertice g v) (pyUpper v) = some []) := by
  refine ⟨?_, ?_, ?_, ?_⟩
  · intro g v h
    simp [MainPy.criar_vertice, h]
  · intro g v h
    simp [Tarefa2Lista.add_vertice, h]
  · intro g v
    exact dget_dset_self g v []
  · intro g v h
    simp only [Tarefa2Lista.add_vertice, if_neg h]
    exact dget_dset_self g (pyUpper v) []

/-- Witness for C4 (amended), at concrete one- and two-vertex graphs. -/
theorem c4_criar_vertice_amended_witness :
    MainPy.criar_vertice [("A", ["B"])] "A" = [("A", ["B"])] ∧
    Tarefa2Lista.add_vertice [("A", [("B", 1)])] "A" = [("A", [("B", 1)])] ∧
    dget (Aula1.criar_vertice [] "X") "X" = some [] ∧
    dget (Tarefa2Lista.add_vertice [("B", [])] "a") "A" = some [] :=
  ⟨c4_criar_vertice_amended.1 _ _ (by decide),
   c4_criar_vertice_amended.2.1 _ _ (by decide),
   c4_criar_vertice_amended.2.2.1 [] "X",
   by
     have h := c4_criar_vertice_amended.2.2.2 [("B", [])] "a" (by decide)
     simpa using h⟩

/-! ## C5 — missing-vertex errors in `add_aresta` are atomic -/

/-- C5: in both `tarefa2_lista.py` and `tarefa2_matriz.py`, `add_aresta`
raises a missing-vertex `RuntimeError` when either endpoint (as the class
normalizes it: uppercased in the lista variant, raw in the matriz variant)
is not a key, and in that case the graph is left completely unchanged —
both presence checks run before the single mutation. -/
theorem c5_add_aresta_missing_vertex_atomic :
    (∀ (g : Tarefa2Lista.Grafo) (o d : String) (p : ℚ),
      (pyUpper o) ∉ dkeys g ∨ (pyUpper d) ∉ dkeys g →
      (Tarefa2Lista.add_aresta g o d p).1 = g ∧
        (Tarefa2Lista.add_aresta g o d p).2.isSome = true) ∧
    (∀ (g : Tarefa2Matriz.Grafo) (o d : String) (p : ℚ),
      o ∉ dkeys g ∨ d ∉ dkeys g →
      (Tarefa2Matriz.add_aresta g o d p).1 = g ∧
        (Tarefa2Matriz.add_aresta g o d p).2.isSome = true) := by
  constructor
  · intro g o d p h
    by_cases ho : (pyUpper o) ∈ dkeys g
    · have hd : (pyUpper d) ∉ dkeys g := by tauto
      simp [Tarefa2Lista.add_aresta, ho, hd]
    · simp [Tarefa2Lista.add_aresta, ho]
  · intro g o d p h
    by_cases ho : o ∈ dkeys g
    · have hd : d ∉ dkeys g := by tauto
      simp [Tarefa2Matriz.add_aresta, ho, hd]
    · simp [Tarefa2Matriz.add_aresta, ho]

/-- Witness for C5: adding an edge out of the absent vertex "X" errors and
leaves each one-vertex graph unchanged. -/
theorem c5_add_aresta_missing_vertex_atomic_witness :
    ((Tarefa2Lista.add_aresta [("A", [])] "X" "A" 1).1 = [("A", [])] ∧
      (Tarefa2Lista.add_aresta [("A", [])] "X" "A" 1).2.isSome = true) ∧
    ((Tarefa2Matriz.add_aresta [("A", [("A", none)])] "X" "A" 1).1 =
        [("A", [("A", none)])] ∧
      (Tarefa2Matriz.add_aresta [("A", [("A", none)])] "X" "A" 1).2.isSome = true) :=
  ⟨c5_add_aresta_missing_vertex_atomic.1 _ "X" "A" 1 (Or.inl (by decide)),
   c5_add_aresta_missing_vertex_atomic.2 _ "X" "A" 1 (Or.inl (by decide))⟩

/-! ## C6 — behavior of the path enumerators on absent vertices -/

/-- C6 counterexample: on the graph with the single vertex "B" and absent
origin "A", `tarefa2_lista.py`'s `calcular_caminhos_possiveis` raises a
`KeyError` (embedded as `none`) instead of returning an empty result. -/
theorem c6_lista_raises_on_absent_origin :
    Tarefa2Lista.calcular_caminhos_possiveis [("B", [])] "A" "B" = none := by
  decide

/-- C6 (amended): `tarefa1.py`'s `calcular_possibilidades_caminhos` does
return the empty list immediately, without error, when either vertex is
absent; but `tarefa2_lista.py`'s `calcular_caminhos_possiveis` has no such
check: with the origin absent and different from the destination it raises
a `KeyError`, and with origin equal to destination it returns the singleton
empty path (not an empty result) even for absent vertices. -/
theorem c6_absent_vertices_amended :
    (∀ (g : Tarefa1.Grafo) (u v : Tarefa1.Vertice),
      u ∉ g.vertices ∨ v ∉ g.vertices →
      Tarefa1.calcular_possibilidades_caminhos g u v = []) ∧
    (∀ (g : Tarefa2Lista.Grafo) (o d : String), o ∉ dkeys g → o ≠ d →
      Tarefa2Lista.calcular_caminhos_possiveis g o d = none) ∧
    (∀ (g : Tarefa2Lista.Grafo) (o : String),
      Tarefa2Lista.calcular_caminhos_possiveis g o o = some [[]]) := by
  refine ⟨?_, ?_, ?_⟩
  · intro g u v h
    simp [Tarefa1.calcular_possibilidades_caminhos, h]
  · intro g o d ho hne
    simp only [Tarefa2Lista.calcular_caminhos_possiveis, Tarefa2Lista.calcCaminhos]
    rw [if_neg hne, dget_eq_none_of_not_mem g o ho]
  · intro g o
    simp [Tarefa2Lista.calcular_caminhos_possiveis, Tarefa2Lista.calcCaminhos]

/-- Witness for C6 (amended) at concrete graphs. -/
theorem c6_absent_vertices_amended_witness :
    Tarefa1.calcular_possibilidades_caminhos ⟨[⟨"B"⟩], []⟩ ⟨"A"⟩ ⟨"B"⟩ = [] ∧
    Tarefa2Lista.calcular_caminhos_possiveis [("B", [])] "A" "B" = none ∧
    Tarefa2Lista.calcular_caminhos_possiveis [("B", [])] "A" "A" = some [[]] :=
  ⟨c6_absent_vertices_amended.1 _ _ _ (Or.inl (by decide)),
   c6_absent_vertices_amended.2.1 _ "A" "B" (by decide) (by decide),
   c6_absent_vertices_amended.2.2 _ "A"⟩

/-! ## C10 — origin equal to destination yields the one empty path -/

/-- C10: in both `tarefa2_matriz.py` and `tarefa2_lista.py`, calling
`calcular_caminhos_possiveis` with origin and destination equal to a vertex
of the graph returns a list with exactly one path — the empty path — and
not an empty list: the destination test precedes any neighbor exploration. -/
theorem c10_self_path_singleton_empty :
    (∀ (g : Tarefa2Lista.Grafo) (x : String), x ∈ dkeys g →
      Tarefa2Lista.calcular_caminhos_possiveis g x x = some [[]]) ∧
    (∀ (g : Tarefa2Matriz.Grafo) (x : String), x ∈ dkeys g →
      Tarefa2Matriz.calcular_caminhos_possiveis g x x = some [[]]) := by
  constructor
  · intro g x _
    simp [Tarefa2Lista.calcular_caminhos_possiveis, Tarefa2Lista.calcCaminhos]
  · intro g x _
    simp [Tarefa2Matriz.calcular_caminhos_possiveis, Tarefa2Matriz.calcCaminhos]

/-- Witness for C10 at a concrete two-vertex graph in each representation. -/
theorem c10_self_path_singleton_empty_witness :
    Tarefa2Lista.calcular_caminhos_possiveis [("A", [("B", 1)]), ("B", [])]
      "A" "A" = some [[]] ∧
    Tarefa2Matriz.calcular_caminhos_possiveis
      [("A", [("A", none), ("B", some 1)]), ("B", [("A", none), ("B", none)])]
      "B" "B" = some [[]] :=
  ⟨c10_self_path_singleton_empty.1 _ "A" (by decide),
   c10_self_path_singleton_empty.2 _ "B" (by decide)⟩

/-! ## C2 — soundness of `tarefa1.py`'s path enumeration -/

namespace Tarefa1


/-- The paths emitted by `dfs` all extend the incoming `caminho_atual`
buffer: running with buffer `caminho` is running with an empty buffer and
prefixing `caminho` to every result. -/
theorem dfsT1_shift (g : Grafo) (dest : Vertice) :
    ∀ (fuel : ℕ) (atual : Vertice) (vis : List Vertice) (caminho : List Arco),
      dfsT1 g dest fuel atual vis caminho =
        (dfsT1 g dest fuel atual vis []).map (caminho ++ ·) := by
  intro fuel
  induction fuel with
  | zero => intros; simp [dfsT1]
  | succ f ih =>
    intro atual vis caminho
    by_cases h : atual = dest
    · simp [dfsT1, h]
    · simp only [dfsT1, if_neg h]
      rw [List.map_flatMap]
      refine congrArg _ (funext fun v => ?_)
      cases harc : arcoGet g (atual, v) with
      | none => simp
      | some arco =>
        simp only []
        by_cases hv : v ∈ (if atual ∈ vis then vis else vis ++ [atual])
        · simp [hv]
        · simp only [if_neg hv, List.nil_append]
          rw [ih, ih v _ [arco], List.map_map]
          simp [Function.comp_def]

/-- Soundness of the inner `dfs`: every emitted arc list is traced by a
duplicate-free vertex sequence from `atual` to `dest` that avoids the
incoming visited set. -/
theorem dfsT1_sound (g : Grafo) (dest : Vertice) :
    ∀ (fuel : ℕ) (atual : Vertice) (vis : List Vertice), atual ∉ vis →
      ∀ q ∈ dfsT1 g dest fuel atual vis [], ∃ vs : List Vertice,
        vs.head? = some atual ∧ vs.getLast? = some dest ∧ vs.Nodup ∧
        (∀ x ∈ vs, x ∉ vis) ∧ ArcTrail g vs q := by
  intro fuel
  induction fuel with
  | zero =>
    intro atual vis _ q hq
    simp [dfsT1] at hq
  | succ f ih =>
    intro atual vis hnv q hq
    by_cases h : atual = dest
    · subst h
      simp [dfsT1] at hq
      subst hq
      refine ⟨[atual], rfl, rfl, by simp, ?_, trivial⟩
      intro x hx
      simp at hx
      subst hx
      exact hnv
    · simp only [dfsT1, if_neg h, if_neg hnv, List.mem_flatMap] at hq
      obtain ⟨v, _, hq⟩ := hq
      cases harc : arcoGet g (atual, v) with
      | none => simp only [harc] at hq; simp at hq
      | some arco =>
        simp only [harc] at hq
        by_cases hv : v ∈ vis ++ [atual]
        · rw [if_pos hv] at hq; simp at hq
        · rw [if_neg hv] at hq
          rw [List.nil_append] at hq
          rw [dfsT1_shift, List.mem_map] at hq
          obtain ⟨q2, hq2, rfl⟩ := hq
          obtain ⟨vs, hhead, hlast, hnd, havoid, htrail⟩ :=
            ih v (vis ++ [atual]) hv q2 hq2
          cases vs with
          | nil => simp at hhead
          | cons vhd vtl =>
            have hvhd : vhd = v := by simpa using hhead
            have hatual_mem : atual ∈ vis ++ [atual] := by simp
            refine ⟨atual :: vhd :: vtl, rfl, ?_, ?_, ?_, ?_⟩
            · rw [List.getLast?_cons_cons]
              exact hlast
            · rw [List.nodup_cons]
              exact ⟨fun hm => havoid atual hm hatual_mem, hnd⟩
            · intro x hx
              rcases List.mem_cons.mp hx with hx | hx
              · subst hx; exact hnv
              · intro hxv
                exact havoid x hx (List.mem_append_left _ hxv)
            · refine ⟨?_, htrail⟩
              rw [hvhd]
              exact harc

/-- C2: every path returned by `calcular_possibilidades_caminhos g u v` is
traced by a vertex sequence that starts at `u`, ends at `v` and repeats no
vertex, and `calcular_soma_pesos` returns exactly the per-path sums of the
edge weights, in the same order. -/
theorem c2_enumerate_paths_simple (g : Grafo) (u v : Vertice) :
    (∀ p ∈ calcular_possibilidades_caminhos g u v, ∃ vs : List Vertice,
      vs.head? = some u ∧ vs.getLast? = some v ∧ vs.Nodup ∧ ArcTrail g vs p) ∧
    calcular_soma_pesos g u v =
      (calcular_possibilidades_caminhos g u v).map
        (fun p => (p.map Arco.peso).sum) := by
  constructor
  · intro p hp
    unfold calcular_possibilidades_caminhos at hp
    by_cases hmem : u ∉ g.vertices ∨ v ∉ g.vertices
    · rw [if_pos hmem] at hp
      simp at hp
    · rw [if_neg hmem] at hp
      obtain ⟨vs, h1, h2, h3, _, h5⟩ :=
        dfsT1_sound g v (g.vertices.length + 1) u [] (by simp) p hp
      exact ⟨vs, h1, h2, h3, h5⟩
  · unfold calcular_soma_pesos
    refine List.map_congr_left fun p _ => ?_
    rw [p.map Arco.peso |>.sum_eq_foldl, List.foldl_map]

end Tarefa1

/-- Witness for C2: on the example graph of `tarefa1.main` (vertices A, B, C
with unit-weight undirected arcs A–B, A–C, C–B), the enumerated one-arc path
from A to B is traced by a duplicate-free vertex sequence from A to B. -/
theorem c2_enumerate_paths_simple_witness :
    ∃ vs : List Tarefa1.Vertice,
      vs.head? = some ⟨"A"⟩ ∧ vs.getLast? = some ⟨"B"⟩ ∧ vs.Nodup ∧
      Tarefa1.ArcTrail (Tarefa1.exampleGrafo.getD ⟨[], []⟩) vs
        [⟨⟨"A"⟩, ⟨"B"⟩, 1⟩] :=
  (Tarefa1.c2_enumerate_paths_simple (Tarefa1.exampleGrafo.getD ⟨[], []⟩)
    ⟨"A"⟩ ⟨"B"⟩).1 [⟨⟨"A"⟩, ⟨"B"⟩, 1⟩] (by decide)

/-! ## C9 — the spec's Dijkstra fixes the source entry -/

namespace SpecDijkstra

/-- Invariant carried through the spec's Dijkstra loop: the source keeps
distance 0 and path `[s]`, and every distance stays nonnegative. -/
def SrcInv (s : String)
    (st : (String → WithTop ℚ) × (String → List String)) : Prop :=
  st.1 s = 0 ∧ st.2 s = [s] ∧ ∀ x, 0 ≤ st.1 x

/-- Relaxing edges of nonnegative weight preserves `SrcInv`: an update of
the source entry would need `dist u + c < 0`, impossible when every
distance and weight is nonnegative. -/
theorem relaxNbrs_srcInv (s u : String) (nbrs : List (String × ℚ))
    (hn : ∀ nb ∈ nbrs, 0 ≤ nb.2) :
    ∀ st, SrcInv s st → SrcInv s (relaxNbrs u nbrs st) := by
  unfold relaxNbrs
  induction nbrs with
  | nil => intro st h; exact h
  | cons nb tl ih =>
    intro st h
    rw [List.foldl_cons]
    refine ih (fun x hx => hn x (List.mem_cons_of_mem _ hx)) _ ?_
    by_cases hc : st.1 u + (nb.2 : WithTop ℚ) < st.1 nb.1
    · rw [if_pos hc]
      obtain ⟨h1, h2, h3⟩ := h
      have hw : (0 : WithTop ℚ) ≤ (nb.2 : WithTop ℚ) := by
        rw [← WithTop.coe_zero, WithTop.coe_le_coe]
        exact hn nb (List.mem_cons_self _ _)
      have hpos : (0 : WithTop ℚ) ≤ st.1 u + (nb.2 : WithTop ℚ) :=
        add_nonneg (h3 u) hw
      have hns : nb.1 ≠ s := by
        intro he
        rw [he, h1] at hc
        exact absurd hc (not_lt.mpr hpos)
      refine ⟨?_, ?_, ?_⟩
      · show (if s = nb.1 then _ else st.1 s) = 0
        rw [if_neg (Ne.symm hns)]
        exact h1
      · show (if s = nb.1 then _ else st.2 s) = [s]
        rw [if_neg (Ne.symm hns)]
        exact h2
      · intro x
        show (0 : WithTop ℚ) ≤ if x = nb.1 then _ else st.1 x
        by_cases hx : x = nb.1
        · rw [if_pos hx]
          exact hpos
        · rw [if_neg hx]
          exact h3 x
    · rw [if_neg hc]
      exact h

/-- The whole loop preserves `SrcInv` when every stored weight is
nonnegative. -/
theorem dloop_srcInv (g : Grafo) (s : String)
    (hg : ∀ e ∈ g, ∀ nb ∈ e.2, 0 ≤ nb.2) :
    ∀ (fuel : ℕ) (pending : List String) (dist : String → WithTop ℚ)
      (path : String → List String), SrcInv s (dist, path) →
      SrcInv s (dloop g fuel pending dist path) := by
  intro fuel
  induction fuel with
  | zero => intro pending dist path h; exact h
  | succ f ih =>
    intro pending dist path h
    match pending with
    | [] => exact h
    | q :: qs =>
      simp only [dloop]
      by_cases hc : dist (selectMin dist q qs) = ⊤
      · rw [if_pos hc]
        exact h
      · rw [if_neg hc]
        apply ih
        refine relaxNbrs_srcInv s _ _ ?_ (dist, path) h
        intro nb hnb
        cases hd : dget g (selectMin dist q qs) with
        | none => rw [hd] at hnb; simp at hnb
        | some row =>
          rw [hd] at hnb
          exact hg _ (dget_mem _ _ _ hd) nb (by simpa using hnb)

/-- C9: for every graph with nonnegative edge weights and every source
vertex present in it, the spec-modelled `dijkstra` assigns distance 0 and
the singleton path `[s]` to the source. -/
theorem c9_dijkstra_source (g : Grafo) (s : String)
    (hg : ∀ e ∈ g, ∀ nb ∈ e.2, 0 ≤ nb.2) (_hs : s ∈ dkeys g) :
    (dijkstra g s).1 s = 0 ∧ (dijkstra g s).2 s = [s] := by
  have h0 : SrcInv s
      (fun v => if v = s then (0 : WithTop ℚ) else ⊤,
       fun v => if v = s then [s] else []) := by
    refine ⟨by simp, by simp, ?_⟩
    intro x
    by_cases hx : x = s
    · simp [hx]
    · simp [hx]
  have h := dloop_srcInv g s hg (dkeys g).length (dkeys g) _ _ h0
  exact ⟨h.1, h.2.1⟩

end SpecDijkstra

/-- Witness for C9 on the concrete graph A→B (weight 10). -/
theorem c9_dijkstra_source_witness :
    (SpecDijkstra.dijkstra [("A", [("B", 10)]), ("B", [])] "A").1 "A" = 0 ∧
    (SpecDijkstra.dijkstra [("A", [("B", 10)]), ("B", [])] "A").2 "A" = ["A"] :=
  SpecDijkstra.c9_dijkstra_source _ "A" (by decide) (by decide)
